import Mathlib

/-!
Verification of the arithmetic-expression interpreter in
`src/InterpreterTDD/Interpreter.h`.

The pipeline is embedded shallowly: each C++ class that implements a pass
(`Lexer::Detail::Tokenizer`, `Lexer::Detail::UnaryOperatorMarker`,
`Parser::Detail::ShuntingYardParser`, `Evaluator::Detail::StackEvaluator`)
becomes a pure Lean function on token lists.  C++ `std::vector` stacks
(`push_back`/`back`/`pop_back`) are modelled as Lean lists whose head is the
stack top; output sequences keep their left-to-right order.  Thrown
`std::logic_error`s become `Except.error` carrying the exception's message.

The C++ value type `double` is kept abstract where possible: the evaluator is
parameterised over a value type `α` together with the five arithmetic
operations the code installs in its function map (the IEEE-754 operations on
`double` are total functions of this shape, division by zero included).  The
executable instantiation used for concrete runs takes `α := ℚ` with exact
rational arithmetic.
-/

namespace Interpreter

/-- The `Operator` enumeration of `Interpreter.h` (UPlus/UMinus are the
unary-marked forms of Plus/Minus). -/
inductive Operator : Type
  | Plus
  | Minus
  | Mul
  | Div
  | LParen
  | RParen
  | UPlus
  | UMinus
  deriving DecidableEq, Repr

/-- The `Token` tagged union: either a number (payload of the value type `α`,
`double` in the source) or an operator.  Token equality is variant-aware, as
in the source's double-dispatch `Equals`. -/
inductive Token (α : Type) : Type
  | Number : α → Token α
  | Op : Operator → Token α
  deriving DecidableEq, Repr

namespace Lexer

/-- Embedding of `Tokenizer::IsOperator`: membership of the character in `"+-*/()"`. -/
def isOperatorChar (c : Char) : Bool :=
  c == '+' || c == '-' || c == '*' || c == '/' || c == '(' || c == ')'

/-- Embedding of `Tokenizer::ScanOperator`'s switch: the token emitted for an operator
character (the `default: break` case emits nothing). -/
def scanOperator (c : Char) : List (Token ℚ) :=
  match c with
  | '+' => [Token.Op Operator.Plus]
  | '-' => [Token.Op Operator.Minus]
  | '*' => [Token.Op Operator.Mul]
  | '/' => [Token.Op Operator.Div]
  | '(' => [Token.Op Operator.LParen]
  | ')' => [Token.Op Operator.RParen]
  | _ => []

/-- Value of a string of decimal digits. -/
def digitsToNat (ds : List Char) : ℕ :=
  ds.foldl (fun a c => 10 * a + (c.toNat - 48)) 0

/-- Value of the fractional digit string after the decimal point. -/
def fracValue (ds : List Char) : ℚ :=
  ds.foldr (fun c r => ((c.toNat - 48 : ℚ) + r) / 10) 0

/-- Modelled from the C library `wcstod`, which `Tokenizer::ScanNumber`
delegates to and which is not part of this repository's sources.  It is
invoked only at a position holding a decimal digit and consumes the maximal
numeric prefix: a run of digits, optionally followed by a decimal point and a
further run of digits (exponent forms never arise in the verified claims and
are not modelled).  Returns the parsed value and the remaining characters. -/
def scanNumber (cs : List Char) : ℚ × List Char :=
  let ds := cs.takeWhile Char.isDigit
  match cs.dropWhile Char.isDigit with
  | d :: r2 =>
      if d = '.' then
        ((digitsToNat ds : ℚ) + fracValue (r2.takeWhile Char.isDigit),
         r2.dropWhile Char.isDigit)
      else ((digitsToNat ds : ℚ), d :: r2)
  | [] => ((digitsToNat ds : ℚ), [])

/-- Embedding of `Tokenizer::Tokenize`: scan left to right; a digit starts a
number scan, an operator character emits its token, anything else is
skipped. -/
def Tokenize : List Char → List (Token ℚ)
  | [] => []
  | c :: cs =>
    if h : c.isDigit then
      Token.Number (scanNumber (c :: cs)).1 :: Tokenize (scanNumber (c :: cs)).2
    else if isOperatorChar c then
      scanOperator c ++ Tokenize cs
    else
      Tokenize cs
termination_by cs => cs.length
decreasing_by
  · have hdrop : (c :: cs).dropWhile Char.isDigit = cs.dropWhile Char.isDigit := by
      simp [List.dropWhile, h]
    have hlen : (cs.dropWhile Char.isDigit).length ≤ cs.length :=
      (List.dropWhile_suffix Char.isDigit).length_le
    unfold scanNumber
    simp only [hdrop]
    cases hr : cs.dropWhile Char.isDigit with
    | nil => simp
    | cons d r2 =>
        rw [hr] at hlen
        simp only [List.length_cons] at hlen
        by_cases hd : d = '.'
        · have h2 : (r2.dropWhile Char.isDigit).length ≤ r2.length :=
            (List.dropWhile_suffix Char.isDigit).length_le
          simp [hd]
          omega
        · simp [hd]
          omega
  · simp
  · simp

/-- Embedding of `UnaryOperatorMarker::TryConvertToUnary`: rewrite Plus/Minus to their
unary forms, leave every other operator unchanged. -/
def tryConvertToUnary : Operator → Operator
  | Operator.Plus => Operator.UPlus
  | Operator.Minus => Operator.UMinus
  | op => op

/-- The token the marker emits for one input token given the current
`m_nextCanBeUnary` flag (`VisitNumber` emits the number unchanged,
`VisitOperator` converts when the flag is set). -/
def markStep {α : Type} (b : Bool) : Token α → Token α
  | Token.Number v => Token.Number v
  | Token.Op op => Token.Op (if b then tryConvertToUnary op else op)

/-- The `m_nextCanBeUnary` flag value after visiting one token: `false` after
a number, `(op != RParen)` after an operator (the original operator, before
any conversion). -/
def nextFlag {α : Type} : Token α → Bool
  | Token.Number _ => false
  | Token.Op op => decide (op ≠ Operator.RParen)

/-- Embedding of `UnaryOperatorMarker::Mark`'s traversal, with the flag made explicit. -/
def markUnaryAux {α : Type} (b : Bool) : List (Token α) → List (Token α)
  | [] => []
  | t :: ts => markStep b t :: markUnaryAux (nextFlag t) ts

/-- Embedding of `Lexer::MarkUnaryOperators`: the flag starts `true`. -/
def MarkUnaryOperators {α : Type} (ts : List (Token α)) : List (Token α) :=
  markUnaryAux true ts

end Lexer

namespace Parser

/-- Embedding of `Parser::PrecedenceOf`: 2 for a UMinus token, 1 for Mul/Div tokens, 0 for
every other token (number tokens included — the source compares with
variant-aware token equality, which any number token fails). -/
def PrecedenceOf {α : Type} : Token α → Int
  | Token.Op Operator.UMinus => 2
  | Token.Op Operator.Mul => 1
  | Token.Op Operator.Div => 1
  | _ => 0

/-- Test for the `LParen` operator token (the source's comparison
`tok == Token(Operator::LParen)`). -/
def isLParen {α : Type} : Token α → Bool
  | Token.Op Operator.LParen => true
  | _ => false

/-- The shunting-yard state: `m_output` (left-to-right order) and `m_stack`
(head of the list = top of the stack). -/
structure ParserState (α : Type) : Type where
  output : List (Token α)
  stack : List (Token α)
  deriving DecidableEq, Repr

/-- Embedding of `PopToOutputUntil(LeftParenOnTop)`: pop until an LParen is on top (or the
stack empties).  Returns the popped tokens (pop order) and the rest. -/
def popUntilLParen {α : Type} : List (Token α) → List (Token α) × List (Token α)
  | [] => ([], [])
  | t :: rest =>
    if isLParen t then ([], t :: rest)
    else
      let p := popUntilLParen rest
      (t :: p.1, p.2)

/-- Embedding of
`PopToOutputUntil(LeftParenOnTop || OperatorWithLessPrecedenceOnTop(op))`
for a binary operator `op`: pop until the top is an LParen or has strictly
smaller precedence (or the stack empties). -/
def popForBinary {α : Type} (op : Operator) : List (Token α) → List (Token α) × List (Token α)
  | [] => ([], [])
  | t :: rest =>
    if isLParen t || PrecedenceOf t < PrecedenceOf (Token.Op op : Token α) then
      ([], t :: rest)
    else
      let p := popForBinary op rest
      (t :: p.1, p.2)

/-- The final `PopToOutputUntil(StackHasNoOperators)`: drain the whole stack
to the output, but `StackHasNoOperators` throws "Closing paren not found." as
soon as an LParen is on top. -/
def drainStack {α : Type} : List (Token α) → Except String (List (Token α))
  | [] => Except.ok []
  | t :: rest =>
    if isLParen t then Except.error "Closing paren not found."
    else
      match drainStack rest with
      | Except.ok p => Except.ok (t :: p)
      | Except.error e => Except.error e

/-- One step of `ShuntingYardParser`'s token visitor. -/
def parseStep {α : Type} (s : ParserState α) : Token α → Except String (ParserState α)
  | Token.Number v => Except.ok ⟨s.output ++ [Token.Number v], s.stack⟩
  | Token.Op Operator.UPlus => Except.ok s
  | Token.Op Operator.UMinus =>
      Except.ok ⟨s.output, Token.Op Operator.UMinus :: s.stack⟩
  | Token.Op Operator.LParen =>
      Except.ok ⟨s.output, Token.Op Operator.LParen :: s.stack⟩
  | Token.Op Operator.RParen =>
      let p := popUntilLParen s.stack
      match p.2 with
      | t :: rest =>
          if isLParen t then Except.ok ⟨s.output ++ p.1, rest⟩
          else Except.error "Opening paren not found."
      | [] => Except.error "Opening paren not found."
  | Token.Op op =>
      let p := popForBinary op s.stack
      Except.ok ⟨s.output ++ p.1, Token.Op op :: p.2⟩

/-- Embedding of `ShuntingYardParser::Parse`'s token loop, propagating thrown errors. -/
def parseLoop {α : Type} (s : ParserState α) : List (Token α) → Except String (ParserState α)
  | [] => Except.ok s
  | t :: ts =>
    match parseStep s t with
    | Except.ok s' => parseLoop s' ts
    | Except.error e => Except.error e

/-- Embedding of `Parser::Parse`: run the loop from empty state, then drain the operator
stack to the output. -/
def Parse {α : Type} (ts : List (Token α)) : Except String (List (Token α)) :=
  match parseLoop ⟨[], []⟩ ts with
  | Except.error e => Except.error e
  | Except.ok s =>
    match drainStack s.stack with
    | Except.error e => Except.error e
    | Except.ok popped => Except.ok (s.output ++ popped)

end Parser

namespace Evaluator

/-- The arithmetic of the value type: the five operations
`StackEvaluator::FunctionsMap` installs, plus the zero that
`StackEvaluator::Result` returns for an empty stack.  The IEEE-754 operations
on the source's `double` are total functions of this shape (division by zero
yields a value, `±inf`/`NaN`, never an exception). -/
structure Arith (α : Type) : Type where
  zero : α
  add : α → α → α
  sub : α → α → α
  mul : α → α → α
  div : α → α → α
  neg : α → α

/-- An entry of the evaluator's function map: an operation together with its
arity (`EvalFunctionImpl<T, 2>` or `EvalFunctionImpl<T, 1>`). -/
inductive EvalFn (α : Type) : Type
  | binary : (α → α → α) → EvalFn α
  | unary : (α → α) → EvalFn α

/-- Embedding of `StackEvaluator::FunctionsMap`: Plus/Minus/Mul/Div are binary with
`args[0]` the first-pushed (deeper) operand, UMinus is unary negation; no
other operator has an entry. -/
def FunctionsMap {α : Type} (A : Arith α) : Operator → Option (EvalFn α)
  | Operator.Plus => some (EvalFn.binary A.add)
  | Operator.Minus => some (EvalFn.binary A.sub)
  | Operator.Mul => some (EvalFn.binary A.mul)
  | Operator.Div => some (EvalFn.binary A.div)
  | Operator.UMinus => some (EvalFn.unary A.neg)
  | _ => none

/-- Embedding of `EvalFunctionImpl::Eval`: check the stack holds at least `Size` operands
(else throw "Not enough operands in stack."), pop the top `Size`, apply the
function with `args[0]` the first-pushed of them, push the result.  The list
head is the stack top. -/
def evalApply {α : Type} (f : EvalFn α) (stack : List α) : Except String (List α) :=
  match f with
  | EvalFn.binary g =>
    match stack with
    | b :: a :: rest => Except.ok (g a b :: rest)
    | _ => Except.error "Not enough operands in stack."
  | EvalFn.unary g =>
    match stack with
    | a :: rest => Except.ok (g a :: rest)
    | [] => Except.error "Not enough operands in stack."

/-- One step of `StackEvaluator`'s token visitor: numbers are pushed;
operators are looked up in the function map (`fmap.at` throws for a missing
key) and applied. -/
def evalStep {α : Type} (A : Arith α) (stack : List α) : Token α → Except String (List α)
  | Token.Number v => Except.ok (v :: stack)
  | Token.Op op =>
    match FunctionsMap A op with
    | some f => evalApply f stack
    | none => Except.error "map::at"

/-- Embedding of `StackEvaluator::Evaluate`'s token loop, propagating thrown errors. -/
def evalLoop {α : Type} (A : Arith α) (stack : List α) : List (Token α) → Except String (List α)
  | [] => Except.ok stack
  | t :: ts =>
    match evalStep A stack t with
    | Except.ok st' => evalLoop A st' ts
    | Except.error e => Except.error e

/-- Embedding of `Evaluator::Evaluate`: run the loop from an empty stack;
`StackEvaluator::Result` returns the stack top, or zero when the stack is
empty. -/
def Evaluate {α : Type} (A : Arith α) (ts : List (Token α)) : Except String α :=
  match evalLoop A [] ts with
  | Except.ok st => Except.ok (st.headD A.zero)
  | Except.error e => Except.error e

/-- The executable instantiation of the value type used for concrete runs:
exact rational arithmetic (with Lean's total division, so `x / 0 = 0`; the
IEEE-754 `±inf`/`NaN` values themselves are outside this model, but like the
source's doubles, division never raises an error). -/
def ratArith : Arith ℚ where
  zero := 0
  add := fun a b => a + b
  sub := fun a b => a - b
  mul := fun a b => a * b
  div := fun a b => a / b
  neg := fun a => -a

end Evaluator

/-- Embedding of `InterpreteExperssion`, the top-level entry point:
`Evaluate(Parse(Tokenize(expression)))` — the source does not invoke
`MarkUnaryOperators` here. -/
def InterpreteExperssion (expression : List Char) : Except String ℚ :=
  match Parser.Parse (Lexer.Tokenize expression) with
  | Except.ok ts => Evaluator.Evaluate Evaluator.ratArith ts
  | Except.error e => Except.error e

/-- The four-stage composition prescribed by the spec's §4.5:
`evaluate(parse(markUnary(tokenize(text))))`.  Stated for comparison with
`InterpreteExperssion`; it is not what the source's entry point computes. -/
def interpretViaMarkUnary (expression : List Char) : Except String ℚ :=
  match Parser.Parse (Lexer.MarkUnaryOperators (Lexer.Tokenize expression)) with
  | Except.ok ts => Evaluator.Evaluate Evaluator.ratArith ts
  | Except.error e => Except.error e

/-! ### Spec-side notions used to state the claims -/

namespace Parser

/-- Test for the `RParen` operator token. -/
def isRParen {α : Type} : Token α → Bool
  | Token.Op Operator.RParen => true
  | _ => false

/-- Dyck-style check that the parentheses of a token sequence are equal in
count and correctly nested, carrying the current open depth. -/
def balancedAux {α : Type} (d : ℕ) : List (Token α) → Bool
  | [] => d == 0
  | t :: ts =>
    if isLParen t then balancedAux (d + 1) ts
    else if isRParen t then
      match d with
      | 0 => false
      | k + 1 => balancedAux k ts
    else balancedAux d ts

/-- A token sequence whose parentheses are equal in count and correctly
nested. -/
def Balanced {α : Type} (ts : List (Token α)) : Prop :=
  balancedAux 0 ts = true

instance {α : Type} (ts : List (Token α)) : Decidable (Balanced ts) := by
  unfold Balanced; infer_instance

/-- Number of `LParen` tokens held in the operator stack. -/
def countLP {α : Type} : List (Token α) → ℕ
  | [] => 0
  | t :: ts => (if isLParen t then 1 else 0) + countLP ts

end Parser

namespace Lexer

/-- The value of the marker's `m_nextCanBeUnary` flag when the token at
position `i` is visited: the flag starts `true` and is updated by each of the
first `i` tokens in turn. -/
def flagBefore {α : Type} (ts : List (Token α)) (i : ℕ) : Bool :=
  (ts.take i).foldl (fun _ t => nextFlag t) true

end Lexer

end Interpreter

/-! ### Lemmas about the embedded pipeline -/

namespace Interpreter
namespace Lexer

theorem markUnaryAux_length {α : Type} (b : Bool) (ts : List (Token α)) :
    (markUnaryAux b ts).length = ts.length := by
  induction ts generalizing b with
  | nil => rfl
  | cons t ts ih => simp [markUnaryAux, ih]

theorem markUnaryAux_getD {α : Type} (ts : List (Token α)) (b : Bool) (i : ℕ)
    (h : i < ts.length) (dflt : Token α) :
    (markUnaryAux b ts).getD i dflt =
      markStep ((ts.take i).foldl (fun _ t => nextFlag t) b) (ts.getD i dflt) := by
  induction ts generalizing b i with
  | nil => simp at h
  | cons t ts ih =>
      cases i with
      | zero => simp [markUnaryAux]
      | succ j =>
          have hj : j < ts.length := by simpa using h
          have h2 := ih (nextFlag t) j hj
          simpa [markUnaryAux] using h2

theorem markStep_markStep {α : Type} (b : Bool) (t : Token α) :
    markStep b (markStep b t) = markStep b t := by
  cases t with
  | Number v => rfl
  | Op op => cases b <;> cases op <;> rfl

theorem nextFlag_markStep {α : Type} (b : Bool) (t : Token α) :
    nextFlag (markStep b t) = nextFlag t := by
  cases t with
  | Number v => rfl
  | Op op => cases b <;> cases op <;> rfl

theorem markUnaryAux_idem {α : Type} (b : Bool) (ts : List (Token α)) :
    markUnaryAux b (markUnaryAux b ts) = markUnaryAux b ts := by
  induction ts generalizing b with
  | nil => rfl
  | cons t ts ih =>
      simp only [markUnaryAux, markStep_markStep, nextFlag_markStep, ih (nextFlag t)]

end Lexer
end Interpreter

namespace Interpreter
namespace Parser

theorem isLParen_eq_true_iff {α : Type} (t : Token α) :
    isLParen t = true ↔ t = Token.Op Operator.LParen := by
  cases t with
  | Number v => simp [isLParen]
  | Op op => cases op <;> simp [isLParen]

theorem popForBinary_eq {α : Type} (op : Operator) (st : List (Token α)) :
    popForBinary op st =
      (st.takeWhile (fun t =>
          !isLParen t && decide (PrecedenceOf (Token.Op op : Token α) ≤ PrecedenceOf t)),
       st.dropWhile (fun t =>
          !isLParen t && decide (PrecedenceOf (Token.Op op : Token α) ≤ PrecedenceOf t))) := by
  induction st with
  | nil => simp [popForBinary]
  | cons t rest ih =>
      by_cases h1 : isLParen t = true
      · simp [popForBinary, h1, List.takeWhile, List.dropWhile]
      · by_cases h2 : PrecedenceOf t < PrecedenceOf (Token.Op op : Token α)
        · simp [popForBinary, h1, h2, List.takeWhile, List.dropWhile, not_le.mpr h2]
        · simp [popForBinary, h1, h2, List.takeWhile, List.dropWhile, not_lt.mp h2, ih]

theorem popForBinary_countLP {α : Type} (op : Operator) (st : List (Token α)) :
    countLP (popForBinary op st).2 = countLP st := by
  induction st with
  | nil => simp [popForBinary]
  | cons t rest ih =>
      by_cases h1 : isLParen t = true
      · simp [popForBinary, h1, countLP]
      · by_cases h2 : PrecedenceOf t < PrecedenceOf (Token.Op op : Token α)
        · simp [popForBinary, h1, h2, countLP]
        · simp [popForBinary, h1, h2, countLP, ih]

theorem popUntilLParen_spec {α : Type} (st : List (Token α)) (h : 1 ≤ countLP st) :
    ∃ popped rest, popUntilLParen st = (popped, Token.Op Operator.LParen :: rest) ∧
      countLP rest = countLP st - 1 := by
  induction st with
  | nil => simp [countLP] at h
  | cons t rest ih =>
      by_cases hl : isLParen t = true
      · refine ⟨[], rest, ?_, ?_⟩
        · simp [popUntilLParen, hl, (isLParen_eq_true_iff t).mp hl, isLParen]
        · simp [countLP, hl]
      · have hc : countLP (t :: rest) = countLP rest := by simp [countLP, hl]
        rw [hc] at h
        obtain ⟨p, r, hpr, hcount⟩ := ih h
        refine ⟨t :: p, r, ?_, ?_⟩
        · simp [popUntilLParen, hl, hpr]
        · rw [hcount, hc]

theorem drainStack_ok {α : Type} (st : List (Token α)) (h : countLP st = 0) :
    ∃ p, drainStack st = Except.ok p := by
  induction st with
  | nil => exact ⟨[], rfl⟩
  | cons t rest ih =>
      by_cases hl : isLParen t = true
      · exfalso
        simp [countLP, hl] at h
      · have hr : countLP rest = 0 := by simpa [countLP, hl] using h
        obtain ⟨p, hp⟩ := ih hr
        exact ⟨t :: p, by simp [drainStack, hl, hp]⟩

end Parser
end Interpreter

namespace Interpreter
namespace Parser

theorem parseStep_binary {α : Type} (op : Operator)
    (hop : op = Operator.Plus ∨ op = Operator.Minus ∨ op = Operator.Mul ∨ op = Operator.Div)
    (s : ParserState α) :
    parseStep s (Token.Op op) =
      Except.ok ⟨s.output ++ (popForBinary op s.stack).1,
                 Token.Op op :: (popForBinary op s.stack).2⟩ := by
  rcases hop with h | h | h | h <;> subst h <;> rfl

theorem parseLoop_balanced_binary_step {α : Type} {ts : List (Token α)} {d : ℕ}
    {s : ParserState α} (op : Operator)
    (hop : op = Operator.Plus ∨ op = Operator.Minus ∨ op = Operator.Mul ∨ op = Operator.Div)
    (ih : ∀ (d : ℕ) (s : ParserState α), balancedAux d ts = true → countLP s.stack = d →
      ∃ s', parseLoop s ts = Except.ok s' ∧ countLP s'.stack = 0)
    (hb : balancedAux d (Token.Op op :: ts) = true) (hc : countLP s.stack = d) :
    ∃ s', parseLoop s (Token.Op op :: ts) = Except.ok s' ∧ countLP s'.stack = 0 := by
  have hnl : isLParen (Token.Op op : Token α) = false := by
    rcases hop with h | h | h | h <;> subst h <;> rfl
  have hnr : isRParen (Token.Op op : Token α) = false := by
    rcases hop with h | h | h | h <;> subst h <;> rfl
  have hb' : balancedAux d ts = true := by simpa [balancedAux, hnl, hnr] using hb
  obtain ⟨s', h1, h2⟩ := ih d ⟨s.output ++ (popForBinary op s.stack).1,
      Token.Op op :: (popForBinary op s.stack).2⟩ hb'
    (by simp [countLP, hnl, popForBinary_countLP, hc])
  exact ⟨s', by simp [parseLoop, parseStep_binary op hop, h1], h2⟩

theorem parseLoop_balanced {α : Type} (ts : List (Token α)) :
    ∀ (d : ℕ) (s : ParserState α), balancedAux d ts = true → countLP s.stack = d →
      ∃ s', parseLoop s ts = Except.ok s' ∧ countLP s'.stack = 0 := by
  induction ts with
  | nil =>
      intro d s hb hc
      refine ⟨s, rfl, ?_⟩
      simp [balancedAux] at hb
      omega
  | cons t ts ih =>
      intro d s hb hc
      cases t with
      | Number v =>
          have hb' : balancedAux d ts = true := by
            simpa [balancedAux, isLParen, isRParen] using hb
          obtain ⟨s', h1, h2⟩ := ih d ⟨s.output ++ [Token.Number v], s.stack⟩ hb' (by simpa using hc)
          exact ⟨s', by simp [parseLoop, parseStep, h1], h2⟩
      | Op op =>
          cases op with
          | Plus => exact parseLoop_balanced_binary_step Operator.Plus (Or.inl rfl) ih hb hc
          | Minus => exact parseLoop_balanced_binary_step Operator.Minus (Or.inr (Or.inl rfl)) ih hb hc
          | Mul => exact parseLoop_balanced_binary_step Operator.Mul (Or.inr (Or.inr (Or.inl rfl))) ih hb hc
          | Div => exact parseLoop_balanced_binary_step Operator.Div (Or.inr (Or.inr (Or.inr rfl))) ih hb hc
          | LParen =>
              have hb' : balancedAux (d + 1) ts = true := by
                simpa [balancedAux, isLParen] using hb
              obtain ⟨s', h1, h2⟩ := ih (d + 1) ⟨s.output, Token.Op Operator.LParen :: s.stack⟩ hb'
                (by simp [countLP, isLParen, hc]; omega)
              exact ⟨s', by simp [parseLoop, parseStep, h1], h2⟩
          | RParen =>
              cases d with
              | zero =>
                  exfalso
                  simpa [balancedAux, isLParen, isRParen] using hb
              | succ k =>
                  have hb' : balancedAux k ts = true := by
                    simpa [balancedAux, isLParen, isRParen] using hb
                  have h1le : 1 ≤ countLP s.stack := by omega
                  obtain ⟨p, r, hpr, hcr⟩ := popUntilLParen_spec s.stack h1le
                  have hstep : parseStep s (Token.Op Operator.RParen) =
                      Except.ok ⟨s.output ++ p, r⟩ := by
                    simp [parseStep, hpr, isLParen]
                  have hcr' : countLP r = k := by omega
                  obtain ⟨s', hl1, hl2⟩ := ih k ⟨s.output ++ p, r⟩ hb' hcr'
                  exact ⟨s', by simp [parseLoop, hstep, hl1], hl2⟩
          | UPlus =>
              have hb' : balancedAux d ts = true := by
                simpa [balancedAux, isLParen, isRParen] using hb
              obtain ⟨s', h1, h2⟩ := ih d s hb' hc
              exact ⟨s', by simp [parseLoop, parseStep, h1], h2⟩
          | UMinus =>
              have hb' : balancedAux d ts = true := by
                simpa [balancedAux, isLParen, isRParen] using hb
              obtain ⟨s', h1, h2⟩ := ih d ⟨s.output, Token.Op Operator.UMinus :: s.stack⟩ hb'
                (by simp [countLP, isLParen, hc])
              exact ⟨s', by simp [parseLoop, parseStep, h1], h2⟩

theorem parse_balanced_ok {α : Type} (ts : List (Token α)) (h : Balanced ts) :
    ∃ out, Parse ts = Except.ok out := by
  obtain ⟨s', h1, h2⟩ := parseLoop_balanced ts 0 ⟨[], []⟩ h rfl
  obtain ⟨p, hp⟩ := drainStack_ok s'.stack h2
  exact ⟨s'.output ++ p, by simp [Parse, h1, hp]⟩

end Parser
end Interpreter

namespace Interpreter

theorem whitespace_not_meaningful (c : Char) (h : c.isWhitespace = true) :
    c.isDigit = false ∧ Lexer.isOperatorChar c = false := by
  have h2 : ((c = ' ' ∨ c = '\t') ∨ c = '\r') ∨ c = '\n' := by
    simpa [Char.isWhitespace] using h
  rcases h2 with ((h2 | h2) | h2) | h2 <;> subst h2 <;> exact ⟨by decide, by decide⟩

theorem tokenize_whitespace_only (s : List Char) (h : ∀ c ∈ s, c.isWhitespace = true) :
    Lexer.Tokenize s = [] := by
  induction s with
  | nil => rw [Lexer.Tokenize]
  | cons c cs ih =>
      have hc := whitespace_not_meaningful c (h c (by simp))
      rw [Lexer.Tokenize]
      simp [hc.1, hc.2]
      exact ih (fun x hx => h x (by simp [hx]))

namespace Evaluator

theorem evalStep_binary {α : Type} (A : Arith α) (op : Operator)
    (hop : op = Operator.Plus ∨ op = Operator.Minus ∨ op = Operator.Mul ∨ op = Operator.Div)
    (stack : List α) :
    (stack.length < 2 →
      evalStep A stack (Token.Op op) = Except.error "Not enough operands in stack.") ∧
    (∀ (r l : α) (rest : List α), stack = r :: l :: rest →
      evalStep A stack (Token.Op op) =
        Except.ok ((match op with
          | Operator.Plus => A.add l r
          | Operator.Minus => A.sub l r
          | Operator.Mul => A.mul l r
          | Operator.Div => A.div l r
          | _ => A.zero) :: rest)) := by
  constructor
  · intro hlen
    rcases hop with h | h | h | h <;> subst h <;>
    · match stack, hlen with
      | [], _ => rfl
      | [x], _ => rfl
  · intro r l rest hst
    subst hst
    rcases hop with h | h | h | h <;> subst h <;> rfl

theorem evaluate_top_of_stack {α : Type} (A : Arith α) (ts : List (Token α)) (q : α)
    (st : List α) (h : evalLoop A [] ts = Except.ok (q :: st)) :
    Evaluate A ts = Except.ok q := by
  simp [Evaluate, h]

end Evaluator
end Interpreter

namespace Interpreter

/-- C1 (code_bug evidence): on input "-1" the entry point `InterpreteExperssion`
raises the insufficient-operands error, while the spec's four-stage composition
through `MarkUnaryOperators` evaluates to -1: the two differ, refuting the
claimed equality. -/
theorem interpret_omits_markUnary_divergence :
    InterpreteExperssion ['-', '1'] = Except.error "Not enough operands in stack." ∧
    interpretViaMarkUnary ['-', '1'] = Except.ok (-1) := by
  constructor <;>
  · simp +decide [InterpreteExperssion, interpretViaMarkUnary, Lexer.Tokenize, Lexer.scanNumber,
      Lexer.scanOperator, Lexer.isOperatorChar, Lexer.digitsToNat, Lexer.MarkUnaryOperators,
      Lexer.markUnaryAux, Lexer.markStep, Lexer.nextFlag, Lexer.tryConvertToUnary,
      Parser.Parse, Parser.parseLoop, Parser.parseStep,
      Parser.popForBinary, Parser.popUntilLParen, Parser.drainStack, Parser.isLParen,
      Parser.PrecedenceOf, Evaluator.Evaluate, Evaluator.evalLoop, Evaluator.evalStep,
      Evaluator.evalApply, Evaluator.FunctionsMap, Evaluator.ratArith]

/-- C2 counterexample: the claim assigns UnaryPlus precedence 2, but
`PrecedenceOf` gives a UPlus token precedence 0 (it is neither UMinus nor
Mul/Div, so it falls to the default return). -/
theorem uplus_precedence_ne_two :
    Parser.PrecedenceOf (Token.Op Operator.UPlus : Token ℚ) ≠ 2 := by decide

/-- C2 (amended): `PrecedenceOf` assigns UnaryMinus precedence 2, Mul and Div
precedence 1, and every other token — Plus, Minus, UnaryPlus included —
precedence 0; consequently precedence(Mul) = precedence(Div) >
precedence(Plus) = precedence(Minus) and precedence(UnaryMinus) >
precedence(Mul). -/
theorem precedence_table :
    Parser.PrecedenceOf (Token.Op Operator.UMinus : Token ℚ) = 2 ∧
    Parser.PrecedenceOf (Token.Op Operator.Mul : Token ℚ) = 1 ∧
    Parser.PrecedenceOf (Token.Op Operator.Div : Token ℚ) = 1 ∧
    Parser.PrecedenceOf (Token.Op Operator.Plus : Token ℚ) = 0 ∧
    Parser.PrecedenceOf (Token.Op Operator.Minus : Token ℚ) = 0 ∧
    Parser.PrecedenceOf (Token.Op Operator.UPlus : Token ℚ) = 0 ∧
    Parser.PrecedenceOf (Token.Op Operator.Mul : Token ℚ) =
      Parser.PrecedenceOf (Token.Op Operator.Div : Token ℚ) ∧
    Parser.PrecedenceOf (Token.Op Operator.Plus : Token ℚ) <
      Parser.PrecedenceOf (Token.Op Operator.Mul : Token ℚ) ∧
    Parser.PrecedenceOf (Token.Op Operator.Plus : Token ℚ) =
      Parser.PrecedenceOf (Token.Op Operator.Minus : Token ℚ) ∧
    Parser.PrecedenceOf (Token.Op Operator.Mul : Token ℚ) <
      Parser.PrecedenceOf (Token.Op Operator.UMinus : Token ℚ) := by decide

/-- C3: on a binary operator token, the parser pops to the output exactly the
maximal prefix of the stack whose entries are not LParen and have precedence
at least the current operator's (equal precedence pops), then pushes the
current operator on what remains. -/
theorem parse_binary_pops_geq_then_pushes {α : Type} (op : Operator)
    (hop : op = Operator.Plus ∨ op = Operator.Minus ∨ op = Operator.Mul ∨ op = Operator.Div)
    (out st : List (Token α)) :
    Parser.parseStep ⟨out, st⟩ (Token.Op op) =
      Except.ok ⟨out ++ st.takeWhile (fun t =>
          !Parser.isLParen t &&
            decide (Parser.PrecedenceOf (Token.Op op : Token α) ≤ Parser.PrecedenceOf t)),
        Token.Op op :: st.dropWhile (fun t =>
          !Parser.isLParen t &&
            decide (Parser.PrecedenceOf (Token.Op op : Token α) ≤ Parser.PrecedenceOf t))⟩ := by
  rw [Parser.parseStep_binary op hop, Parser.popForBinary_eq]

theorem parse_binary_pops_witness :
    Parser.parseStep (⟨[], [Token.Op Operator.Mul]⟩ : Parser.ParserState ℚ)
        (Token.Op Operator.Plus) =
      Except.ok ⟨[Token.Op Operator.Mul], [Token.Op Operator.Plus]⟩ := by
  have h := parse_binary_pops_geq_then_pushes Operator.Plus (Or.inl rfl)
    ([] : List (Token ℚ)) [Token.Op Operator.Mul]
  simpa +decide using h

end Interpreter

namespace Interpreter

/-- C4: for any value type and arithmetic (in particular IEEE-754 doubles,
whose operations are total — division by zero yields a value, not an error),
the evaluator on a binary operator token fails with the
insufficient-operands error when the stack holds fewer than 2 entries, and
otherwise pops the top two and pushes `left op right`, the first-pushed of
the pair being the left operand. -/
theorem eval_binary_two_operands {α : Type} (A : Evaluator.Arith α) (op : Operator)
    (hop : op = Operator.Plus ∨ op = Operator.Minus ∨ op = Operator.Mul ∨ op = Operator.Div)
    (stack : List α) :
    (stack.length < 2 →
      Evaluator.evalStep A stack (Token.Op op) =
        Except.error "Not enough operands in stack.") ∧
    (∀ (r l : α) (rest : List α), stack = r :: l :: rest →
      Evaluator.evalStep A stack (Token.Op op) =
        Except.ok ((match op with
          | Operator.Plus => A.add l r
          | Operator.Minus => A.sub l r
          | Operator.Mul => A.mul l r
          | Operator.Div => A.div l r
          | _ => A.zero) :: rest)) := by
  constructor
  · intro hlen
    rcases hop with h | h | h | h <;> subst h <;>
    · match stack, hlen with
      | [], _ => rfl
      | [x], _ => rfl
  · intro r l rest hst
    subst hst
    rcases hop with h | h | h | h <;> subst h <;> rfl

theorem eval_binary_two_operands_witness :
    Evaluator.evalStep Evaluator.ratArith [(0 : ℚ), 1] (Token.Op Operator.Div) =
      Except.ok [(0 : ℚ)] ∧
    Evaluator.evalStep Evaluator.ratArith [(1 : ℚ)] (Token.Op Operator.Plus) =
      Except.error "Not enough operands in stack." := by
  constructor
  · have h := (eval_binary_two_operands Evaluator.ratArith Operator.Div
      (Or.inr (Or.inr (Or.inr rfl))) [(0 : ℚ), 1]).2 0 1 [] rfl
    rw [h]
    norm_num [Evaluator.ratArith]
  · exact (eval_binary_two_operands Evaluator.ratArith Operator.Plus
      (Or.inl rfl) [(1 : ℚ)]).1 (by norm_num)

/-- C5: `Parse` succeeds on every token sequence whose parentheses are equal
in count and correctly nested; it fails on `[Number 1, RParen]` with the
unmatched-opening-parenthesis error and on `[LParen, Number 1]` with the
unmatched-closing-parenthesis error. -/
theorem parse_balanced_and_paren_errors :
    (∀ ts : List (Token ℚ), Parser.Balanced ts → ∃ out, Parser.Parse ts = Except.ok out) ∧
    Parser.Parse [Token.Number (1 : ℚ), Token.Op Operator.RParen] =
      Except.error "Opening paren not found." ∧
    Parser.Parse [Token.Op Operator.LParen, Token.Number (1 : ℚ)] =
      Except.error "Closing paren not found." := by
  refine ⟨fun ts h => Parser.parse_balanced_ok ts h, ?_, ?_⟩ <;>
  · simp +decide [Parser.Parse, Parser.parseLoop, Parser.parseStep,
      Parser.popForBinary, Parser.popUntilLParen, Parser.drainStack, Parser.isLParen,
      Parser.PrecedenceOf]

theorem parse_balanced_witness :
    ∃ out, Parser.Parse [Token.Op Operator.LParen, Token.Number (1 : ℚ),
      Token.Op Operator.RParen] = Except.ok out :=
  parse_balanced_and_paren_errors.1 _ (by decide)

end Interpreter

namespace Interpreter

/-- C6: `MarkUnaryOperators` preserves length, and the i-th output token is
the i-th input token through `markStep` under the running `nextCanBeUnary`
flag (initially true, false after a number or RParen, true after any other
operator): a Plus/Minus at a flagged position becomes UnaryPlus/UnaryMinus,
every other token passes through unchanged. -/
theorem markUnary_pointwise (ts : List (Token ℚ)) :
    (Lexer.MarkUnaryOperators ts).length = ts.length ∧
    ∀ i : ℕ, i < ts.length →
      (Lexer.MarkUnaryOperators ts).getD i (Token.Number 0) =
        Lexer.markStep (Lexer.flagBefore ts i) (ts.getD i (Token.Number 0)) := by
  refine ⟨Lexer.markUnaryAux_length true ts, fun i h => ?_⟩
  simpa [Lexer.MarkUnaryOperators, Lexer.flagBefore] using
    Lexer.markUnaryAux_getD ts true i h (Token.Number 0)

theorem markUnary_pointwise_witness :
    (Lexer.MarkUnaryOperators [Token.Op Operator.Minus, Token.Number (1 : ℚ)]).getD 0
        (Token.Number 0) =
      Lexer.markStep (Lexer.flagBefore [Token.Op Operator.Minus, Token.Number (1 : ℚ)] 0)
        ([Token.Op Operator.Minus, Token.Number (1 : ℚ)].getD 0 (Token.Number 0)) :=
  (markUnary_pointwise [Token.Op Operator.Minus, Token.Number (1 : ℚ)]).2 0 (by decide)

/-- C7: `MarkUnaryOperators` is idempotent on every token sequence. -/
theorem markUnary_idempotent {α : Type} (ts : List (Token α)) :
    Lexer.MarkUnaryOperators (Lexer.MarkUnaryOperators ts) = Lexer.MarkUnaryOperators ts :=
  Lexer.markUnaryAux_idem true ts

/-- C8: `Tokenize` yields the empty sequence on any whitespace-only (in
particular empty) input; `InterpreteExperssion` returns 0 on "" and "   ";
and `Evaluate` of the empty postfix sequence is 0. -/
theorem tokenize_empty_and_whitespace :
    (∀ s : List Char, (∀ c ∈ s, c.isWhitespace = true) → Lexer.Tokenize s = []) ∧
    InterpreteExperssion [] = Except.ok 0 ∧
    InterpreteExperssion "   ".toList = Except.ok 0 ∧
    Evaluator.Evaluate Evaluator.ratArith ([] : List (Token ℚ)) = Except.ok 0 := by
  refine ⟨tokenize_whitespace_only, ?_, ?_, ?_⟩ <;>
  · simp +decide [InterpreteExperssion, Lexer.Tokenize, Lexer.isOperatorChar,
      Parser.Parse, Parser.parseLoop, Parser.parseStep, Parser.drainStack,
      Evaluator.Evaluate, Evaluator.evalLoop, Evaluator.ratArith]

theorem tokenize_whitespace_witness :
    Lexer.Tokenize [' ', '\t'] = [] :=
  tokenize_empty_and_whitespace.1 [' ', '\t'] (by decide)

/-- C9: `InterpreteExperssion` returns 3 on "1+2" and -5 on "1+2*3/(4-5)",
the latter via the postfix sequence `1 2 3 * 4 5 - / +`. -/
theorem interpret_scenarios :
    InterpreteExperssion "1+2".toList = Except.ok 3 ∧
    InterpreteExperssion "1+2*3/(4-5)".toList = Except.ok (-5) ∧
    Parser.Parse (Lexer.Tokenize "1+2*3/(4-5)".toList) =
      Except.ok [Token.Number 1, Token.Number 2, Token.Number 3, Token.Op Operator.Mul,
        Token.Number 4, Token.Number 5, Token.Op Operator.Minus, Token.Op Operator.Div,
        Token.Op Operator.Plus] := by
  refine ⟨?_, ?_, ?_⟩ <;>
  · simp +decide [InterpreteExperssion, Lexer.Tokenize, Lexer.scanNumber, Lexer.scanOperator,
      Lexer.isOperatorChar, Lexer.digitsToNat, Parser.Parse, Parser.parseLoop, Parser.parseStep,
      Parser.popForBinary, Parser.popUntilLParen, Parser.drainStack, Parser.isLParen,
      Parser.PrecedenceOf, Evaluator.Evaluate, Evaluator.evalLoop, Evaluator.evalStep,
      Evaluator.evalApply, Evaluator.FunctionsMap, Evaluator.ratArith]
    try norm_num

/-- C10: when the operand stack holds one or more values after all tokens are
consumed, `Evaluate` does not fail: it returns the most recently pushed value
and discards the rest — e.g. on `[Number 1, Number 2]` it returns 2. -/
theorem evaluate_returns_top_discards_rest :
    (∀ (ts : List (Token ℚ)) (q : ℚ) (st : List ℚ),
      Evaluator.evalLoop Evaluator.ratArith [] ts = Except.ok (q :: st) →
        Evaluator.Evaluate Evaluator.ratArith ts = Except.ok q) ∧
    Evaluator.Evaluate Evaluator.ratArith [Token.Number (1 : ℚ), Token.Number 2] =
      Except.ok 2 := by
  refine ⟨fun ts q st h => Evaluator.evaluate_top_of_stack Evaluator.ratArith ts q st h, ?_⟩
  simp +decide [Evaluator.Evaluate, Evaluator.evalLoop, Evaluator.evalStep, Evaluator.ratArith]

theorem evaluate_returns_top_witness :
    Evaluator.Evaluate Evaluator.ratArith [Token.Number (1 : ℚ), Token.Number 2] =
      Except.ok 2 :=
  evaluate_returns_top_discards_rest.1 [Token.Number 1, Token.Number 2] 2 [1]
    (by simp +decide [Evaluator.evalLoop, Evaluator.evalStep])

end Interpreter
